import Mathlib

/-!
Verification of the session-credential and per-user file-storage core of
`src/backend/server.js`.

Paths are modelled at the character level, mirroring Node's posix
`path.join`: the nonempty arguments are concatenated with a slash and the
result is normalized lexically (`.` segments dropped, `..` segments cancel
the preceding segment, duplicate slashes collapsed, `..` at an absolute
root dropped).  Trailing-slash preservation is the one part of Node's
normalization not modelled; no path built by the server code ends with a
slash.
-/

namespace CFS

abbrev Seg := List Char

def dotSeg : Seg := ['.']

def ddotSeg : Seg := ['.', '.']

/-- Split a character list on slashes; pieces may be empty. -/
def splitSlash : List Char → List Seg
  | [] => [[]]
  | c :: rest =>
    if c = '/' then [] :: splitSlash rest
    else
      match splitSlash rest with
      | [] => [[c]]
      | p :: ps => (c :: p) :: ps

/-- The nonempty slash-separated segments of a character list. -/
def segsOfChars (cs : List Char) : List Seg :=
  (splitSlash cs).filter (fun s => decide (s ≠ []))

/-- Join segments with slashes (inverse of `splitSlash` on clean segments). -/
def joinSegs : List Seg → List Char
  | [] => []
  | [s] => s
  | s :: r :: rest => s ++ '/' :: joinSegs (r :: rest)

/-- One step of lexical `.`/`..` normalization over a stack of segments
(top of the stack first). -/
def normStep (isAbs : Bool) (stack : List Seg) (seg : Seg) : List Seg :=
  if seg = dotSeg then stack
  else if seg = ddotSeg then
    match stack with
    | [] => if isAbs then [] else [ddotSeg]
    | top :: rest => if top = ddotSeg then seg :: top :: rest else rest
  else seg :: stack

/-- Lexical normalization of a segment list, as in Node's `path.normalize`. -/
def normSegs (isAbs : Bool) (segs : List Seg) : List Seg :=
  (segs.foldl (normStep isAbs) []).reverse

def isAbsOf (cs : List Char) : Bool :=
  match cs with
  | [] => false
  | c :: _ => if c = '/' then true else false

def renderPath (isAbs : Bool) (segs : List Seg) : List Char :=
  if isAbs then '/' :: joinSegs segs
  else if segs = [] then ['.'] else joinSegs segs

/-- The normalized segments of a character list (Node `path.normalize` core). -/
def normOf (cs : List Char) : List Seg := normSegs (isAbsOf cs) (segsOfChars cs)

/-- Node's `path.normalize` on a character list. -/
def renderOf (cs : List Char) : List Char := renderPath (isAbsOf cs) (normOf cs)

/-- Join-then-normalize on character lists. -/
def joinNorm (l : List (List Char)) : List Char := renderOf (joinSegs l)

/-- Model of Node's posix `path.join`: drop empty arguments, concatenate
with slashes, normalize. -/
def pathJoin (parts : List String) : String :=
  String.mk (joinNorm ((parts.map String.data).filter (fun p => decide (p ≠ []))))

theorem splitSlash_ne_nil (cs : List Char) : splitSlash cs ≠ [] := by
  cases cs with
  | nil => simp [splitSlash]
  | cons c rest =>
    by_cases h : c = '/'
    · simp [splitSlash, h]
    · simp only [splitSlash, if_neg h]
      cases splitSlash rest <;> simp

theorem noSlash_of_mem_splitSlash (cs : List Char) (s : Seg)
    (hs : s ∈ splitSlash cs) : '/' ∉ s := by
  induction cs generalizing s with
  | nil =>
    simp [splitSlash] at hs
    simp [hs]
  | cons c rest ih =>
    by_cases h : c = '/'
    · simp only [splitSlash, if_pos h, List.mem_cons] at hs
      rcases hs with h1 | h2
      · simp [h1]
      · exact ih s h2
    · simp only [splitSlash, if_neg h] at hs
      cases hsplit : splitSlash rest with
      | nil => exact absurd hsplit (splitSlash_ne_nil rest)
      | cons p ps =>
        rw [hsplit] at hs
        rcases List.mem_cons.mp hs with h1 | h2
        · subst h1
          intro hmem
          rcases List.mem_cons.mp hmem with h3 | h4
          · exact h (h3.symm)
          · have hp : p ∈ splitSlash rest := by rw [hsplit]; exact List.mem_cons_self p ps
            exact ih p hp h4
        · have : s ∈ splitSlash rest := by rw [hsplit]; exact List.mem_cons_of_mem p h2
          exact ih s this

theorem splitSlash_append (a b : List Char) :
    splitSlash (a ++ '/' :: b) = splitSlash a ++ splitSlash b := by
  induction a with
  | nil => simp [splitSlash]
  | cons c a ih =>
    by_cases h : c = '/'
    · show splitSlash (c :: (a ++ '/' :: b)) = _
      rw [splitSlash, if_pos h, ih, splitSlash, if_pos h]
      simp
    · show splitSlash (c :: (a ++ '/' :: b)) = _
      rw [splitSlash, if_neg h, ih, splitSlash, if_neg h]
      cases hsplit : splitSlash a with
      | nil => exact absurd hsplit (splitSlash_ne_nil a)
      | cons p ps => simp

theorem splitSlash_noSlash (s : List Char) (h : '/' ∉ s) : splitSlash s = [s] := by
  induction s with
  | nil => simp [splitSlash]
  | cons c rest ih =>
    have hc : c ≠ '/' := fun hc => h (by simp [hc])
    have hrest : '/' ∉ rest := fun hr => h (List.mem_cons_of_mem c hr)
    simp only [splitSlash, if_neg hc, ih hrest]

theorem segsOfChars_append (a b : List Char) :
    segsOfChars (a ++ '/' :: b) = segsOfChars a ++ segsOfChars b := by
  simp [segsOfChars, splitSlash_append, List.filter_append]

theorem segsOfChars_clean (s : List Char) (hne : s ≠ []) (hslash : '/' ∉ s) :
    segsOfChars s = [s] := by
  simp [segsOfChars, splitSlash_noSlash s hslash, hne]

theorem segsOfChars_joinSegs (l : List Seg) :
    segsOfChars (joinSegs l) = (l.map segsOfChars).flatten := by
  induction l with
  | nil => simp [joinSegs, segsOfChars, splitSlash]
  | cons s rest ih =>
    cases rest with
    | nil => simp [joinSegs]
    | cons r rest2 =>
      simp only [joinSegs, segsOfChars_append, List.map_cons, List.flatten_cons]
      rw [ih]
      simp

theorem joinSegs_cons (s : Seg) (l : List Seg) (hl : l ≠ []) :
    joinSegs (s :: l) = s ++ '/' :: joinSegs l := by
  cases l with
  | nil => exact absurd rfl hl
  | cons r rest => rfl

theorem joinSegs_append (xs ys : List Seg) (hx : xs ≠ []) (hy : ys ≠ []) :
    joinSegs (xs ++ ys) = joinSegs xs ++ '/' :: joinSegs ys := by
  induction xs with
  | nil => exact absurd rfl hx
  | cons s xs ih =>
    cases xs with
    | nil =>
      simp only [List.nil_append, List.cons_append]
      exact joinSegs_cons s ys hy
    | cons r rest =>
      have h1 : (r :: rest) ++ ys ≠ [] := by simp
      rw [List.cons_append, joinSegs_cons s ((r :: rest) ++ ys) h1,
          ih (by simp), joinSegs_cons s (r :: rest) (by simp)]
      simp

theorem joinSegs_ne_nil (l : List Seg) (hl : l ≠ []) (helem : ∀ s ∈ l, s ≠ []) :
    joinSegs l ≠ [] := by
  cases l with
  | nil => exact absurd rfl hl
  | cons s rest =>
    cases rest with
    | nil =>
      have := helem s (by simp)
      simpa [joinSegs] using this
    | cons r rest2 =>
      have := helem s (by simp)
      intro h
      rw [joinSegs_cons s (r :: rest2) (by simp)] at h
      cases hs : s with
      | nil => exact this hs
      | cons c cs => rw [hs] at h; simp at h

/-- A segment that normalization always pushes: nonempty, not `.` or `..`,
and slash-free. -/
abbrev CleanSeg (s : Seg) : Prop := s ≠ [] ∧ s ≠ dotSeg ∧ s ≠ ddotSeg ∧ '/' ∉ s

/-- Reachable normalization stacks (top first): clean segments on top of a
block of `..` segments; an absolute path has no `..` block. -/
def GoodStack (isAbs : Bool) (st : List Seg) : Prop :=
  ∃ cs k, st = cs ++ List.replicate k ddotSeg ∧ (∀ s ∈ cs, CleanSeg s) ∧
    (isAbs = true → k = 0)

theorem goodStack_nil (isAbs : Bool) : GoodStack isAbs [] :=
  ⟨[], 0, by simp, by simp, fun _ => rfl⟩

theorem normStep_dot (isAbs : Bool) (st : List Seg) : normStep isAbs st dotSeg = st := by
  simp [normStep]

theorem normStep_push (isAbs : Bool) (st : List Seg) (seg : Seg)
    (h1 : seg ≠ dotSeg) (h2 : seg ≠ ddotSeg) :
    normStep isAbs st seg = seg :: st := by
  simp [normStep, h1, h2]

theorem normStep_ddot_pop (isAbs : Bool) (c : Seg) (rest : List Seg) (hc : c ≠ ddotSeg) :
    normStep isAbs (c :: rest) ddotSeg = rest := by
  have h1 : ddotSeg ≠ dotSeg := by decide
  simp [normStep, h1, hc]

theorem normStep_ddot_nil (isAbs : Bool) :
    normStep isAbs [] ddotSeg = if isAbs then [] else [ddotSeg] := by
  have h1 : ddotSeg ≠ dotSeg := by decide
  simp [normStep, h1]

theorem normStep_ddot_ddot (isAbs : Bool) (rest : List Seg) :
    normStep isAbs (ddotSeg :: rest) ddotSeg = ddotSeg :: ddotSeg :: rest := by
  have h1 : ddotSeg ≠ dotSeg := by decide
  simp [normStep, h1]

theorem goodStack_normStep (isAbs : Bool) (st : List Seg) (seg : Seg)
    (hst : GoodStack isAbs st) (hseg : seg ≠ [] ∧ '/' ∉ seg) :
    GoodStack isAbs (normStep isAbs st seg) := by
  obtain ⟨cs, k, hdecomp, hclean, habs⟩ := hst
  by_cases hdot : seg = dotSeg
  · rw [hdot, normStep_dot]
    exact ⟨cs, k, hdecomp, hclean, habs⟩
  by_cases hddot : seg = ddotSeg
  · subst hddot
    cases hcs : cs with
    | cons c cs2 =>
      subst hcs
      rw [hdecomp, List.cons_append,
        normStep_ddot_pop isAbs c _ (hclean c (by simp)).2.2.1]
      exact ⟨cs2, k, rfl, fun s hs => hclean s (List.mem_cons_of_mem c hs), habs⟩
    | nil =>
      subst hcs
      rw [hdecomp, List.nil_append]
      cases hk : k with
      | zero =>
        rw [List.replicate_zero, normStep_ddot_nil]
        cases isAbs with
        | false =>
          rw [if_neg (by simp)]
          exact ⟨[], 1, by simp, by simp, by intro h; cases h⟩
        | true =>
          rw [if_pos rfl]
          exact goodStack_nil true
      | succ j =>
        rw [List.replicate_succ, normStep_ddot_ddot]
        refine ⟨[], j + 2, ?_, by simp, ?_⟩
        · simp [List.replicate_succ]
        · intro h
          exact absurd (habs h) (by rw [hk]; simp)
  · rw [normStep_push isAbs st seg hdot hddot, hdecomp]
    exact ⟨seg :: cs, k, by simp, by
      intro s hs
      rcases List.mem_cons.mp hs with h1 | h2
      · subst h1; exact ⟨hseg.1, hdot, hddot, hseg.2⟩
      · exact hclean s h2, habs⟩

theorem goodStack_foldl (isAbs : Bool) (segs : List Seg) (st : List Seg)
    (hsegs : ∀ s ∈ segs, s ≠ [] ∧ '/' ∉ s) (hst : GoodStack isAbs st) :
    GoodStack isAbs (segs.foldl (normStep isAbs) st) := by
  induction segs generalizing st with
  | nil => simpa using hst
  | cons s rest ih =>
    rw [List.foldl_cons]
    exact ih _ (fun x hx => hsegs x (List.mem_cons_of_mem s hx))
      (goodStack_normStep isAbs st s hst (hsegs s (by simp)))

theorem goodStack_elems (isAbs : Bool) (st : List Seg) (h : GoodStack isAbs st) :
    ∀ s ∈ st, s ≠ [] ∧ '/' ∉ s := by
  obtain ⟨cs, k, hdecomp, hclean, _⟩ := h
  subst hdecomp
  intro s hs
  rcases List.mem_append.mp hs with h1 | h2
  · exact ⟨(hclean s h1).1, (hclean s h1).2.2.2⟩
  · have : s = ddotSeg := List.eq_of_mem_replicate h2
    subst this
    exact ⟨by decide, by decide⟩

theorem foldl_clean_push (isAbs : Bool) (l : List Seg) :
    ∀ st, (∀ s ∈ l, CleanSeg s) → l.foldl (normStep isAbs) st = l.reverse ++ st := by
  induction l with
  | nil => intro st _; simp
  | cons c l ih =>
    intro st hl
    have hc := hl c (by simp)
    rw [List.foldl_cons, normStep_push isAbs st c hc.2.1 hc.2.2.1,
      ih _ (fun x hx => hl x (List.mem_cons_of_mem c hx))]
    simp

theorem foldl_ddots (k j : Nat) :
    (List.replicate k ddotSeg).foldl (normStep false) (List.replicate j ddotSeg)
      = List.replicate (j + k) ddotSeg := by
  induction k generalizing j with
  | zero => simp
  | succ k ih =>
    rw [List.replicate_succ, List.foldl_cons]
    have hstep : normStep false (List.replicate j ddotSeg) ddotSeg
        = List.replicate (j + 1) ddotSeg := by
      cases j with
      | zero =>
        rw [List.replicate_zero, normStep_ddot_nil, if_neg (by simp)]
        simp
      | succ j2 =>
        rw [List.replicate_succ, normStep_ddot_ddot]
        simp [List.replicate_succ]
    rw [hstep, ih (j + 1)]
    congr 1
    omega

theorem foldl_reverse_good (isAbs : Bool) (st : List Seg) (h : GoodStack isAbs st) :
    st.reverse.foldl (normStep isAbs) [] = st := by
  obtain ⟨cs, k, hdecomp, hclean, habs⟩ := h
  subst hdecomp
  rw [List.reverse_append, List.reverse_replicate, List.foldl_append]
  cases isAbs with
  | false =>
    have h0 : (List.replicate k ddotSeg).foldl (normStep false) [] = List.replicate k ddotSeg := by
      simpa using foldl_ddots k 0
    rw [h0, foldl_clean_push false cs.reverse _ (fun s hs => hclean s (List.mem_reverse.mp hs))]
    simp
  | true =>
    rw [habs rfl]
    simp only [List.replicate_zero, List.foldl_nil, List.append_nil]
    rw [foldl_clean_push true cs.reverse _ (fun s hs => hclean s (List.mem_reverse.mp hs))]
    simp

theorem normSegs_norm_append (isAbs : Bool) (xs ys : List Seg)
    (hxs : ∀ s ∈ xs, s ≠ [] ∧ '/' ∉ s) :
    normSegs isAbs (normSegs isAbs xs ++ ys) = normSegs isAbs (xs ++ ys) := by
  unfold normSegs
  rw [List.foldl_append, List.foldl_append,
    foldl_reverse_good isAbs (xs.foldl (normStep isAbs) [])
      (goodStack_foldl isAbs xs [] hxs (goodStack_nil isAbs))]

theorem normSegs_idem (isAbs : Bool) (xs : List Seg)
    (hxs : ∀ s ∈ xs, s ≠ [] ∧ '/' ∉ s) :
    normSegs isAbs (normSegs isAbs xs) = normSegs isAbs xs := by
  have := normSegs_norm_append isAbs xs [] hxs
  simpa using this

theorem normSegs_dot_cons (isAbs : Bool) (ys : List Seg) :
    normSegs isAbs (dotSeg :: ys) = normSegs isAbs ys := by
  unfold normSegs
  rw [List.foldl_cons]
  congr 1

theorem normSegs_elems (isAbs : Bool) (xs : List Seg)
    (hxs : ∀ s ∈ xs, s ≠ [] ∧ '/' ∉ s) :
    ∀ s ∈ normSegs isAbs xs, s ≠ [] ∧ '/' ∉ s := by
  intro s hs
  exact goodStack_elems isAbs _
    (goodStack_foldl isAbs xs [] hxs (goodStack_nil isAbs)) s (List.mem_reverse.mp hs)

theorem normSegs_append_clean (isAbs : Bool) (xs l : List Seg)
    (hl : ∀ s ∈ l, CleanSeg s) :
    normSegs isAbs (xs ++ l) = normSegs isAbs xs ++ l := by
  unfold normSegs
  rw [List.foldl_append, foldl_clean_push isAbs l _ hl, List.reverse_append,
    List.reverse_reverse]

theorem segsOfChars_elems (cs : List Char) :
    ∀ s ∈ segsOfChars cs, s ≠ [] ∧ '/' ∉ s := by
  intro s hs
  rw [segsOfChars, List.mem_filter] at hs
  refine ⟨?_, noSlash_of_mem_splitSlash cs s hs.1⟩
  simpa using hs.2

theorem isAbsOf_append (a b : List Char) (ha : a ≠ []) :
    isAbsOf (a ++ b) = isAbsOf a := by
  cases a with
  | nil => exact absurd rfl ha
  | cons c cs => rfl

theorem isAbsOf_joinSegs_cons (s : Seg) (l : List Seg) (hs : s ≠ []) :
    isAbsOf (joinSegs (s :: l)) = isAbsOf s := by
  cases l with
  | nil => rfl
  | cons r rest =>
    rw [joinSegs_cons s (r :: rest) (by simp)]
    exact isAbsOf_append s _ hs

theorem renderPath_ne_nil (isAbs : Bool) (S : List Seg) (helems : ∀ s ∈ S, s ≠ []) :
    renderPath isAbs S ≠ [] := by
  cases isAbs with
  | true => simp [renderPath]
  | false =>
    by_cases hS : S = []
    · simp [renderPath, hS]
    · rw [renderPath]
      simp only [Bool.false_eq_true, if_false, if_neg hS]
      exact joinSegs_ne_nil S hS helems

theorem isAbsOf_renderPath (isAbs : Bool) (S : List Seg)
    (helems : ∀ s ∈ S, s ≠ [] ∧ '/' ∉ s) : isAbsOf (renderPath isAbs S) = isAbs := by
  cases isAbs with
  | true => simp [renderPath, isAbsOf]
  | false =>
    by_cases hS : S = []
    · subst hS
      simp [renderPath, isAbsOf]
    · rw [renderPath]
      simp only [Bool.false_eq_true, if_false, if_neg hS]
      cases S with
      | nil => exact absurd rfl hS
      | cons s l =>
        rw [isAbsOf_joinSegs_cons s l (helems s (by simp)).1]
        cases s with
        | nil => exact absurd rfl (helems [] (by simp)).1
        | cons c cs =>
          have hc : c ≠ '/' := by
            intro h
            exact (helems (c :: cs) (by simp)).2 (by rw [h]; simp)
          simp [isAbsOf, hc]

theorem segsOfChars_slash_cons (cs : List Char) :
    segsOfChars ('/' :: cs) = segsOfChars cs := by
  simp [segsOfChars, splitSlash]

theorem segsOfChars_joinSegs_clean : ∀ S : List Seg,
    (∀ s ∈ S, s ≠ [] ∧ '/' ∉ s) → segsOfChars (joinSegs S) = S
  | [], _ => by simp [joinSegs, segsOfChars, splitSlash]
  | [s], h => by
    rw [show joinSegs [s] = s from rfl]
    exact segsOfChars_clean s (h s (by simp)).1 (h s (by simp)).2
  | s :: r :: rest, h => by
    rw [joinSegs_cons s (r :: rest) (by simp), segsOfChars_append,
      segsOfChars_clean s (h s (by simp)).1 (h s (by simp)).2,
      segsOfChars_joinSegs_clean (r :: rest) (fun x hx => h x (List.mem_cons_of_mem s hx))]
    rfl

theorem segsOfChars_renderPath (isAbs : Bool) (S : List Seg)
    (helems : ∀ s ∈ S, s ≠ [] ∧ '/' ∉ s) (hS : S ≠ [] ∨ isAbs = true) :
    segsOfChars (renderPath isAbs S) = S := by
  cases isAbs with
  | true =>
    have h1 : renderPath true S = '/' :: joinSegs S := by simp [renderPath]
    rw [h1, segsOfChars_slash_cons, segsOfChars_joinSegs_clean S helems]
  | false =>
    have hS' : S ≠ [] := by
      rcases hS with h | h
      · exact h
      · cases h
    have h1 : renderPath false S = joinSegs S := by simp [renderPath, hS']
    rw [h1, segsOfChars_joinSegs_clean S helems]

theorem normOf_elems (cs : List Char) : ∀ s ∈ normOf cs, s ≠ [] ∧ '/' ∉ s :=
  normSegs_elems _ _ (segsOfChars_elems cs)

theorem renderOf_ne_nil (cs : List Char) : renderOf cs ≠ [] :=
  renderPath_ne_nil _ _ (fun s hs => (normOf_elems cs s hs).1)

theorem joinNorm_ne_nil (l : List (List Char)) : joinNorm l ≠ [] :=
  renderOf_ne_nil (joinSegs l)

theorem isAbsOf_renderOf (cs : List Char) : isAbsOf (renderOf cs) = isAbsOf cs :=
  isAbsOf_renderPath _ _ (normOf_elems cs)

theorem segsOfChars_renderOf (cs : List Char) :
    segsOfChars (renderOf cs)
      = if normOf cs = [] ∧ isAbsOf cs = false then [dotSeg] else normOf cs := by
  by_cases h : normOf cs = [] ∧ isAbsOf cs = false
  · rw [if_pos h, renderOf, h.1, h.2]
    decide
  · rw [if_neg h]
    have halt : normOf cs ≠ [] ∨ isAbsOf cs = true := by
      cases hb : isAbsOf cs with
      | true => exact Or.inr rfl
      | false =>
        left
        intro hnil
        exact h ⟨hnil, hb⟩
    exact segsOfChars_renderPath (isAbsOf cs) (normOf cs) (normOf_elems cs) halt

theorem normOf_renderOf (cs : List Char) : normOf (renderOf cs) = normOf cs := by
  rw [normOf, isAbsOf_renderOf, segsOfChars_renderOf]
  by_cases h : normOf cs = [] ∧ isAbsOf cs = false
  · rw [if_pos h, h.2, h.1]
    rfl
  · rw [if_neg h]
    exact normSegs_idem _ _ (segsOfChars_elems cs)

theorem normOf_renderOf_append (cs b : List Char) :
    normSegs (isAbsOf cs) (segsOfChars (renderOf cs ++ '/' :: b))
      = normSegs (isAbsOf cs) (segsOfChars (cs ++ '/' :: b)) := by
  rw [segsOfChars_append, segsOfChars_append, segsOfChars_renderOf]
  by_cases h : normOf cs = [] ∧ isAbsOf cs = false
  · rw [if_pos h]
    have h2 : normSegs (isAbsOf cs) (segsOfChars cs ++ segsOfChars b)
        = normSegs (isAbsOf cs) (normOf cs ++ segsOfChars b) :=
      (normSegs_norm_append _ _ _ (segsOfChars_elems cs)).symm
    rw [h2, h.1]
    show normSegs (isAbsOf cs) (dotSeg :: segsOfChars b) = _
    rw [normSegs_dot_cons]
    rfl
  · rw [if_neg h]
    exact normSegs_norm_append _ _ _ (segsOfChars_elems cs)

theorem renderOf_renderOf_append (cs b : List Char) (hcs : cs ≠ []) :
    renderOf (renderOf cs ++ '/' :: b) = renderOf (cs ++ '/' :: b) := by
  have habs : isAbsOf (renderOf cs ++ '/' :: b) = isAbsOf (cs ++ '/' :: b) := by
    rw [isAbsOf_append _ _ (renderOf_ne_nil cs), isAbsOf_append _ _ hcs, isAbsOf_renderOf]
  have hnorm : normOf (renderOf cs ++ '/' :: b) = normOf (cs ++ '/' :: b) := by
    rw [normOf, normOf, habs, isAbsOf_append _ _ hcs]
    exact normOf_renderOf_append cs b
  calc renderOf (renderOf cs ++ '/' :: b)
      = renderPath (isAbsOf (renderOf cs ++ '/' :: b)) (normOf (renderOf cs ++ '/' :: b)) := rfl
    _ = renderPath (isAbsOf (cs ++ '/' :: b)) (normOf (cs ++ '/' :: b)) := by rw [habs, hnorm]
    _ = renderOf (cs ++ '/' :: b) := rfl

theorem joinNorm_cons (P Q : List (List Char))
    (hPelems : ∀ x ∈ P, x ≠ []) (hPne : P ≠ []) :
    joinNorm (joinNorm P :: Q) = joinNorm (P ++ Q) := by
  by_cases hQ : Q = []
  · subst hQ
    rw [List.append_nil]
    show renderOf (joinSegs [joinNorm P]) = joinNorm P
    rw [show joinSegs [joinNorm P] = joinNorm P from rfl]
    show renderPath (isAbsOf (joinNorm P)) (normOf (joinNorm P)) = joinNorm P
    rw [joinNorm, isAbsOf_renderOf, normOf_renderOf]
    rfl
  · have hcsne : joinSegs P ≠ [] := joinSegs_ne_nil P hPne hPelems
    show renderOf (joinSegs (joinNorm P :: Q)) = renderOf (joinSegs (P ++ Q))
    rw [joinSegs_cons _ Q hQ, joinSegs_append P Q hPne hQ, joinNorm]
    exact renderOf_renderOf_append (joinSegs P) (joinSegs Q) hcsne

theorem pathJoin_cons (ps qs : List String) (hp : ∃ p ∈ ps, p.data ≠ []) :
    pathJoin (pathJoin ps :: qs) = pathJoin (ps ++ qs) := by
  obtain ⟨p0, hp0mem, hp0⟩ := hp
  have hPelems : ∀ x ∈ (ps.map String.data).filter (fun p => decide (p ≠ [])), x ≠ [] := by
    intro x hx
    rw [List.mem_filter] at hx
    simpa using hx.2
  have hPne : (ps.map String.data).filter (fun p => decide (p ≠ [])) ≠ [] := by
    intro h
    have hmem : p0.data ∈ (ps.map String.data).filter (fun p => decide (p ≠ [])) := by
      rw [List.mem_filter]
      exact ⟨List.mem_map_of_mem String.data hp0mem, by simpa using hp0⟩
    rw [h] at hmem
    exact absurd hmem (List.not_mem_nil _)
  show String.mk (joinNorm (((pathJoin ps :: qs).map String.data).filter (fun p => decide (p ≠ []))))
      = pathJoin (ps ++ qs)
  have hfilter : ((pathJoin ps :: qs).map String.data).filter (fun p => decide (p ≠ []))
      = joinNorm ((ps.map String.data).filter (fun p => decide (p ≠ [])))
          :: (qs.map String.data).filter (fun p => decide (p ≠ [])) := by
    rw [List.map_cons, List.filter_cons]
    rw [show (pathJoin ps).data = joinNorm ((ps.map String.data).filter (fun p => decide (p ≠ []))) from rfl]
    rw [if_pos (decide_eq_true (joinNorm_ne_nil _))]
  rw [hfilter, joinNorm_cons _ _ hPelems hPne]
  show String.mk (joinNorm _) = String.mk (joinNorm (((ps ++ qs).map String.data).filter (fun p => decide (p ≠ []))))
  rw [List.map_append, List.filter_append]

def replChar : Char := Char.ofNat 0xFFFD

def contByte (b : Nat) : Bool := decide (0x80 ≤ b ∧ b < 0xC0)

/-- Decode one UTF-8 sequence starting at byte `b` with remaining input
`rest`: the decoded character (U+FFFD for an invalid or truncated maximal
subpart, per WHATWG decoding as performed by Node's
`fs.readFileSync(path, "utf8")`) and the input left to decode. -/
def utf8Step (b : Nat) (rest : List Nat) : Char × List Nat :=
  if b < 0x80 then (Char.ofNat b, rest)
  else if b < 0xC2 then (replChar, rest)
  else if b < 0xE0 then
    match rest with
    | [] => (replChar, [])
    | b2 :: rest2 =>
      if contByte b2 then (Char.ofNat ((b - 0xC0) * 0x40 + (b2 - 0x80)), rest2)
      else (replChar, b2 :: rest2)
  else if b < 0xF0 then
    match rest with
    | [] => (replChar, [])
    | b2 :: rest2 =>
      if (if b = 0xE0 then decide (0xA0 ≤ b2 ∧ b2 < 0xC0)
          else if b = 0xED then decide (0x80 ≤ b2 ∧ b2 < 0xA0)
          else contByte b2) then
        match rest2 with
        | [] => (replChar, [])
        | b3 :: rest3 =>
          if contByte b3 then
            (Char.ofNat ((b - 0xE0) * 0x1000 + (b2 - 0x80) * 0x40 + (b3 - 0x80)), rest3)
          else (replChar, b3 :: rest3)
      else (replChar, b2 :: rest2)
  else if b < 0xF5 then
    match rest with
    | [] => (replChar, [])
    | b2 :: rest2 =>
      if (if b = 0xF0 then decide (0x90 ≤ b2 ∧ b2 < 0xC0)
          else if b = 0xF4 then decide (0x80 ≤ b2 ∧ b2 < 0x90)
          else contByte b2) then
        match rest2 with
        | [] => (replChar, [])
        | b3 :: rest3 =>
          if contByte b3 then
            match rest3 with
            | [] => (replChar, [])
            | b4 :: rest4 =>
              if contByte b4 then
                (Char.ofNat ((b - 0xF0) * 0x40000 + (b2 - 0x80) * 0x1000
                  + (b3 - 0x80) * 0x40 + (b4 - 0x80)), rest4)
              else (replChar, b4 :: rest4)
          else (replChar, b3 :: rest3)
      else (replChar, b2 :: rest2)
  else (replChar, rest)

theorem utf8Step_length (b : Nat) (rest : List Nat) :
    (utf8Step b rest).2.length ≤ rest.length := by
  unfold utf8Step
  repeat' split
  all_goals simp_all
  all_goals omega

/-- WHATWG-style UTF-8 decoding with replacement characters, driven by a
fuel counter so the recursion is structural; `utf8Step` consumes at least
one byte per step, so fuel equal to the input length always suffices. -/
def utf8DecodeGo : Nat → List Nat → List Char
  | 0, _ => []
  | _ + 1, [] => []
  | fuel + 1, b :: rest => (utf8Step b rest).1 :: utf8DecodeGo fuel (utf8Step b rest).2

def utf8DecodeAux (bs : List Nat) : List Char := utf8DecodeGo bs.length bs

def utf8DecodeBytes (bs : List Nat) : String := String.mk (utf8DecodeAux bs)

/-- Standard UTF-8 encoding of one scalar value. -/
def utf8EncodeChar (c : Char) : List Nat :=
  let n := c.toNat
  if n < 0x80 then [n]
  else if n < 0x800 then [0xC0 + n / 0x40, 0x80 + n % 0x40]
  else if n < 0x10000 then [0xE0 + n / 0x1000, 0x80 + n / 0x40 % 0x40, 0x80 + n % 0x40]
  else [0xF0 + n / 0x40000, 0x80 + n / 0x1000 % 0x40, 0x80 + n / 0x40 % 0x40, 0x80 + n % 0x40]

def utf8Encode (s : String) : List Nat :=
  s.data.foldr (fun c acc => utf8EncodeChar c ++ acc) []

/-- The JWT payload minted by the login endpoint:
`{dn, homeDirectory, uid}` plus the issued-at and expiry claims. -/
structure TokenPayload where
  dn : String
  homeDirectory : String
  uid : String
  iat : Nat
  exp : Nat
deriving DecidableEq, Repr

/-- Modelled from the spec: the `jsonwebtoken` library is an external
collaborator; per the spec invariant the signature is valid iff the token
is unmodified and was produced with the process-wide signing secret, so it
is idealized as a tag fully determined by the secret and the payload,
recomputed and compared on verification. -/
def macBytes (secret : String) (p : TokenPayload) : List Nat :=
  utf8Encode (secret ++ "|" ++ p.dn ++ "|" ++ p.homeDirectory ++ "|" ++ p.uid
    ++ "|" ++ toString p.iat ++ "|" ++ toString p.exp)

structure Token where
  payload : TokenPayload
  sig : List Nat
deriving DecidableEq, Repr

/-- Model of `jwt.sign({dn, homeDirectory, uid}, JWT_SECRET, {expiresIn: "1h"})`:
the expiry claim is one hour (3600 seconds) after issuance. -/
def jwtSign (secret dn homeDirectory uid : String) (now : Nat) : Token :=
  let p : TokenPayload :=
    { dn := dn, homeDirectory := homeDirectory, uid := uid, iat := now, exp := now + 3600 }
  { payload := p, sig := macBytes secret p }

inductive VerifyError where
  | invalid : VerifyError
  | expired : VerifyError
deriving DecidableEq, Repr

/-- Modelled from the spec: `jwt.verify(token, secret)` checks the signature
and then the expiry claim; a token is rejected as expired once the current
time reaches `exp`. -/
def jwtVerify (secret : String) (now : Nat) (t : Token) : Except VerifyError TokenPayload :=
  if t.sig = macBytes secret t.payload then
    if t.payload.exp ≤ now then Except.error VerifyError.expired
    else Except.ok t.payload
  else Except.error VerifyError.invalid

structure HttpResp where
  status : Nat
  message : String
deriving DecidableEq, Repr

def missingHeaderResp : HttpResp :=
  { status := 401, message := "Authorization header is missing" }

def invalidTokenResp : HttpResp :=
  { status := 401, message := "Invalid or missing token" }

/-- The three shapes of an incoming authorization header: absent, present
but without a parseable bearer token, or carrying a token. -/
inductive BearerInput where
  | missing : BearerInput
  | malformed : BearerInput
  | token : Token → BearerInput
deriving DecidableEq, Repr

/-- Model of `jwtMiddleware`: a missing authorization header gets its own
401 response; any exception raised while extracting or verifying the token
(malformed, tampered, or expired) lands in the single `catch` block, which
sends one generic 401 response. -/
def jwtMiddleware (secret : String) (now : Nat) : BearerInput → Except HttpResp TokenPayload
  | BearerInput.missing => Except.error missingHeaderResp
  | BearerInput.malformed => Except.error invalidTokenResp
  | BearerInput.token t =>
    match jwtVerify secret now t with
    | Except.ok p => Except.ok p
    | Except.error _ => Except.error invalidTokenResp

/-- Model of the `audit` function's message formatting:
`<timestamp> - <action> by <uid>[ on file <filename>]` plus a newline. -/
def auditMessage (action : String) (filename : Option String) (uid timestamp : String) : String :=
  match filename with
  | none => timestamp ++ " - " ++ action ++ " by " ++ uid ++ "\n"
  | some f => timestamp ++ " - " ++ action ++ " by " ++ uid ++ " on file " ++ f ++ "\n"

/-- The file store: an association list from absolute path to file bytes. -/
abbrev FS := List (String × List Nat)

def fsRead : FS → String → Option (List Nat)
  | [], _ => none
  | (q, bs) :: rest, p => if q = p then some bs else fsRead rest p

def fsWrite (fs : FS) (p : String) (bs : List Nat) : FS := (p, bs) :: fs

def fsUnlink (fs : FS) (p : String) : Except String FS :=
  match fsRead fs p with
  | none => Except.error ("ENOENT: no such file or directory")
  | some _ => Except.ok (fs.filter (fun e => decide (e.1 ≠ p)))

/-- `path.join(__dirname, "/home/", uid)`, the per-user home directory
derived on login. -/
def userHomeDir (dirname uid : String) : String := pathJoin [dirname, "/home/", uid]

/-- `path.join(homeDir, "uploads", filename)`, the path resolution used by
the delete, download and view handlers. -/
def resolveFile (homeDir filename : String) : String := pathJoin [homeDir, "uploads", filename]

/-- `path.join(req.user.homeDirectory, "uploads")`, the multer destination. -/
def uploadDest (homeDir : String) : String := pathJoin [homeDir, "uploads"]

/-- `path.join(__dirname, "/home/", user.uid, "uploads")`, the directory the
`/files` handler re-derives from the verified token's uid. -/
def listDir (dirname uid : String) : String := pathJoin [dirname, "/home/", uid, "uploads"]

/-- Multer's stored filename: `` `${Date.now()}-${file.originalname}` ``. -/
def storedFilename (now : Nat) (originalname : String) : String :=
  toString now ++ "-" ++ originalname

structure DeleteOut where
  audits : List String
  resp : HttpResp
  fs : FS
deriving DecidableEq, Repr

/-- Model of `app.delete("/delete/:filename", auditMiddleware("delete"), ...)`:
the audit middleware records first, then `fs.unlink` runs; every unlink
error is mapped to a 500 response. -/
def deleteHandler (fs : FS) (user : TokenPayload) (filename timestamp : String) : DeleteOut :=
  let msg := auditMessage ("delete") (some filename) user.uid timestamp
  match fsUnlink fs (resolveFile user.homeDirectory filename) with
  | Except.error _ =>
    { audits := [msg], resp := { status := 500, message := "Internal Server Error" }, fs := fs }
  | Except.ok fs2 =>
    { audits := [msg], resp := { status := 200, message := "File deleted successfully" }, fs := fs2 }

structure DownloadOut where
  audits : List String
  body : Option (List Nat)
deriving DecidableEq, Repr

/-- Model of `app.get("/download/:filename", auditMiddleware("download"), ...)`:
`res.download` streams the file bytes when present (a missing file yields a
500 error response, modelled as `none`). -/
def downloadHandler (fs : FS) (user : TokenPayload) (filename timestamp : String) : DownloadOut :=
  { audits := [auditMessage ("download") (some filename) user.uid timestamp],
    body := fsRead fs (resolveFile user.homeDirectory filename) }

structure ViewOut where
  audits : List String
  content : Option String
deriving DecidableEq, Repr

/-- Model of `app.get("/view/:filename", jwtMiddleware, auditMiddleware("view"), ...)`:
the handler reads the file with UTF-8 decoding and returns `{content}`
(a read failure yields a 500 response, modelled as `none`). -/
def viewHandler (fs : FS) (user : TokenPayload) (filename timestamp : String) : ViewOut :=
  { audits := [auditMessage ("view") (some filename) user.uid timestamp],
    content := (fsRead fs (resolveFile user.homeDirectory filename)).map utf8DecodeBytes }

structure UploadOut where
  fs : FS
  audits : List String
  storedName : String
  resp : HttpResp
deriving DecidableEq, Repr

/-- Model of `app.post("/upload", upload.single("file"), auditMiddleware("upload"), ...)`:
multer writes the bytes under `<destination>/<storedName>`, the audit
middleware records the stored name, and the handler reports it. -/
def uploadHandler (fs : FS) (user : TokenPayload) (now : Nat) (originalname : String)
    (bytes : List Nat) (timestamp : String) : UploadOut :=
  let name := storedFilename now originalname
  { fs := fsWrite fs (pathJoin [uploadDest user.homeDirectory, name]) bytes,
    audits := [auditMessage ("upload") (some name) user.uid timestamp],
    storedName := name,
    resp := { status := 200, message := "File uploaded successfully" } }

structure FilesOut where
  audits : List String
  resp : HttpResp
  files : Option (List String)
deriving Repr

/-- Model of `app.get("/files", ...)`: the handler re-derives the uploads
directory from the verified token's uid and lists it; there is no audit
call anywhere in this route. -/
def filesHandler (dirname uid : String) (readdir : String → Except String (List String)) : FilesOut :=
  match readdir (listDir dirname uid) with
  | Except.ok names =>
    { audits := [], resp := { status := 200, message := "" }, files := some names }
  | Except.error _ =>
    { audits := [], resp := { status := 500, message := "Error listing files" }, files := none }

structure LoginResp where
  status : Nat
  success : Bool
  message : String
  error : Option String
deriving DecidableEq, Repr

/-- Model of the `/api/login` failure branch: one `failed login` audit entry
keyed by the attempted username, then a 500 response whose `error` field
carries `authResult.error.toString()`. -/
def loginFailureBranch (username errorDetail timestamp : String) : List String × LoginResp :=
  ([auditMessage ("failed login") none username timestamp],
   { status := 500, success := false, message := "Authentication failed",
     error := some errorDetail })

/-- Model of the `/api/login` success branch's token minting: the payload
embeds the home directory derived from the authenticated uid. -/
def issueToken (secret dirname dn uid : String) (now : Nat) : Token :=
  jwtSign secret dn (userHomeDir dirname uid) uid now

/-- Model of the `audit` function's effect: the message is built and handed
to `fs.appendFileSync`; there is no try/catch, so an append failure
propagates to the caller. -/
def auditAppend (append : String → Except String Unit) (action : String)
    (filename : Option String) (uid timestamp : String) : Except String Unit :=
  append (auditMessage action filename uid timestamp)

/-- The delete route with the audit append effect made explicit: if the
append throws, the exception escapes the audit middleware and the route
handler never runs. -/
def deleteHandlerTracked (append : String → Except String Unit) (fs : FS)
    (user : TokenPayload) (filename timestamp : String) : Except String DeleteOut :=
  match auditAppend append ("delete") (some filename) user.uid timestamp with
  | Except.error e => Except.error e
  | Except.ok _ => Except.ok (deleteHandler fs user filename timestamp)

/-- Boolean list-prefix test (used to express "path `p` lies inside the
directory `root`" as `listIsPrefix (root ++ "/") p`). -/
def listIsPrefix : List Char → List Char → Bool
  | [], _ => true
  | _ :: _, [] => false
  | a :: as, b :: bs => if a = b then listIsPrefix as bs else false

theorem listIsPrefix_append_cancel (x y z : List Char) :
    listIsPrefix (x ++ y) (x ++ z) = listIsPrefix y z := by
  induction x with
  | nil => rfl
  | cons c x ih => simp [listIsPrefix, ih]

theorem listIsPrefix_slash_extend (x z : List Char) :
    listIsPrefix (x ++ ['/']) (x ++ '/' :: z) = true := by
  rw [listIsPrefix_append_cancel]
  simp [listIsPrefix]

theorem listIsPrefix_slash_surgery (a : List Char) : ∀ (b x y : List Char),
    '/' ∉ a → '/' ∉ b → listIsPrefix (a ++ '/' :: x) (b ++ '/' :: y) = true → a = b := by
  induction a with
  | nil =>
    intro b x y _ hb h
    cases b with
    | nil => rfl
    | cons c bs =>
      simp only [List.nil_append, List.cons_append, listIsPrefix] at h
      have hc : ('/' : Char) ≠ c := by
        intro hh
        exact hb (by rw [hh]; simp)
      rw [if_neg hc] at h
      exact absurd h (by simp)
  | cons c as ih =>
    intro b x y ha hb h
    cases b with
    | nil =>
      simp only [List.cons_append, List.nil_append, listIsPrefix] at h
      have hc : c ≠ '/' := by
        intro hh
        exact ha (by rw [← hh]; simp)
      rw [if_neg hc] at h
      exact absurd h (by simp)
    | cons c2 bs =>
      simp only [List.cons_append, listIsPrefix] at h
      by_cases hcc : c = c2
      · rw [if_pos hcc] at h
        rw [hcc, ih bs x y (fun m => ha (List.mem_cons_of_mem c m))
          (fun m => hb (List.mem_cons_of_mem c2 m)) h]
      · rw [if_neg hcc] at h
        exact absurd h (by simp)

/-- The fixed leading part of a rendered path `renderPath A (N ++ M)`, up to
but not including the segments `M`. -/
def splitBase (A : Bool) (N : List Seg) : List Char :=
  (if A then ['/'] else []) ++ (if N = [] then [] else joinSegs N ++ ['/'])

theorem renderPath_splitBase (A : Bool) (N M : List Seg) (hM : M ≠ []) :
    renderPath A (N ++ M) = splitBase A N ++ joinSegs M := by
  by_cases hN : N = []
  · subst hN
    cases A with
    | true => simp [renderPath, splitBase]
    | false =>
      have hM2 : ([] : List Seg) ++ M ≠ [] := by simpa using hM
      simp [renderPath, splitBase, hM]
  · have hNM : N ++ M ≠ [] := fun h => hN (List.append_eq_nil.mp h).1
    have hj : joinSegs (N ++ M) = joinSegs N ++ '/' :: joinSegs M := joinSegs_append N M hN hM
    cases A with
    | true => simp [renderPath, splitBase, hj, hN]
    | false => simp [renderPath, splitBase, hNM, hN, hj]

theorem joinNorm_clean_tail (P : List (List Char)) (l : List Seg)
    (hP : ∀ x ∈ P, x ≠ []) (hPne : P ≠ []) (hl : ∀ s ∈ l, CleanSeg s) (hlne : l ≠ []) :
    joinNorm (P ++ l) = renderPath (isAbsOf (joinSegs P)) (normOf (joinSegs P) ++ l) := by
  have hcsne : joinSegs P ≠ [] := joinSegs_ne_nil P hPne hP
  have hlelems : ∀ s ∈ l, s ≠ [] ∧ '/' ∉ s := fun s hs => ⟨(hl s hs).1, (hl s hs).2.2.2⟩
  have hjl : joinSegs (P ++ l) = joinSegs P ++ '/' :: joinSegs l := joinSegs_append P l hPne hlne
  have habs : isAbsOf (joinSegs P ++ '/' :: joinSegs l) = isAbsOf (joinSegs P) :=
    isAbsOf_append _ _ hcsne
  have hsegs : segsOfChars (joinSegs P ++ '/' :: joinSegs l)
      = segsOfChars (joinSegs P) ++ l := by
    rw [segsOfChars_append, segsOfChars_joinSegs_clean l hlelems]
  calc joinNorm (P ++ l)
      = renderPath (isAbsOf (joinSegs (P ++ l)))
          (normSegs (isAbsOf (joinSegs (P ++ l))) (segsOfChars (joinSegs (P ++ l)))) := rfl
    _ = renderPath (isAbsOf (joinSegs P))
          (normSegs (isAbsOf (joinSegs P)) (segsOfChars (joinSegs P) ++ l)) := by
        rw [hjl, habs, hsegs]
    _ = renderPath (isAbsOf (joinSegs P)) (normOf (joinSegs P) ++ l) := by
        rw [normSegs_append_clean _ _ _ hl]
        rfl

/-- Path resolution `path.join(homeDir, "uploads", filename)` flattened
through the `path.join` that created `homeDir` on login. -/
theorem resolve_flat (d u f : String) :
    resolveFile (userHomeDir d u) f = pathJoin [d, "/home/", u, "uploads", f] :=
  pathJoin_cons [d, "/home/", u] ["uploads", f] ⟨"/home/", by simp, by decide⟩

theorem filter_homeParts (d : String) (l : List (List Char)) (hl : ∀ x ∈ l, x ≠ []) :
    ((d.data :: ("/home/").data :: l).filter (fun p => decide (p ≠ [])))
      = (([d.data, ("/home/").data]).filter (fun p => decide (p ≠ []))) ++ l := by
  rw [show d.data :: ("/home/").data :: l = [d.data, ("/home/").data] ++ l from rfl,
    List.filter_append]
  congr 1
  rw [List.filter_eq_self]
  intro x hx
  exact decide_eq_true (hl x hx)

theorem homeParts_elems (d : String) :
    ∀ x ∈ (([d.data, ("/home/").data]).filter (fun p => decide (p ≠ []))), x ≠ [] := by
  intro x hx
  rw [List.mem_filter] at hx
  simpa using hx.2

theorem homeParts_ne_nil (d : String) :
    (([d.data, ("/home/").data]).filter (fun p => decide (p ≠ []))) ≠ [] := by
  intro h
  have hmem : ("/home/").data ∈ (([d.data, ("/home/").data]).filter (fun p => decide (p ≠ []))) := by
    rw [List.mem_filter]
    exact ⟨by simp, by decide⟩
  rw [h] at hmem
  exact absurd hmem (List.not_mem_nil _)

/-- The home directory path splits as a fixed base (depending only on
`__dirname`) followed by the uid segment. -/
theorem userHomeDir_data (d u : String) (hu : CleanSeg u.data) :
    (userHomeDir d u).data
      = splitBase (isAbsOf (joinSegs (([d.data, ("/home/").data]).filter (fun p => decide (p ≠ [])))))
          (normOf (joinSegs (([d.data, ("/home/").data]).filter (fun p => decide (p ≠ [])))))
        ++ u.data := by
  have hkept : ((([d, "/home/", u]).map String.data).filter (fun p => decide (p ≠ [])))
      = (([d.data, ("/home/").data]).filter (fun p => decide (p ≠ []))) ++ [u.data] :=
    filter_homeParts d [u.data] (by intro x hx; rw [List.mem_singleton] at hx; rw [hx]; exact hu.1)
  show joinNorm ((([d, "/home/", u]).map String.data).filter (fun p => decide (p ≠ []))) = _
  rw [hkept, joinNorm_clean_tail _ [u.data] (homeParts_elems d) (homeParts_ne_nil d)
    (by intro s hs; rw [List.mem_singleton] at hs; rw [hs]; exact hu) (by simp)]
  exact renderPath_splitBase _ _ [u.data] (by simp)

/-- The resolved file path splits as the same fixed base followed by the
uid, `uploads`, and filename segments. -/
theorem resolveFile_data (d u f : String) (hu : CleanSeg u.data) (hf : CleanSeg f.data) :
    (resolveFile (userHomeDir d u) f).data
      = splitBase (isAbsOf (joinSegs (([d.data, ("/home/").data]).filter (fun p => decide (p ≠ [])))))
          (normOf (joinSegs (([d.data, ("/home/").data]).filter (fun p => decide (p ≠ [])))))
        ++ (u.data ++ '/' :: (("uploads").data ++ '/' :: f.data)) := by
  have hclean : ∀ s ∈ [u.data, ("uploads").data, f.data], CleanSeg s := by
    intro s hs
    rcases List.mem_cons.mp hs with h1 | h2
    · rw [h1]; exact hu
    rcases List.mem_cons.mp h2 with h3 | h4
    · rw [h3]; decide
    rw [List.mem_singleton] at h4
    rw [h4]; exact hf
  have hkept : ((([d, "/home/", u, "uploads", f]).map String.data).filter (fun p => decide (p ≠ [])))
      = (([d.data, ("/home/").data]).filter (fun p => decide (p ≠ [])))
        ++ [u.data, ("uploads").data, f.data] :=
    filter_homeParts d [u.data, ("uploads").data, f.data]
      (fun x hx => (hclean x hx).1)
  rw [resolve_flat d u f]
  show joinNorm ((([d, "/home/", u, "uploads", f]).map String.data).filter (fun p => decide (p ≠ []))) = _
  rw [hkept, joinNorm_clean_tail _ [u.data, ("uploads").data, f.data] (homeParts_elems d)
    (homeParts_ne_nil d) hclean (by simp)]
  exact renderPath_splitBase _ _ [u.data, ("uploads").data, f.data] (by simp)

theorem getElem?_set_of_some (l : List Nat) : ∀ (i b y : Nat),
    l[i]? = some y → (l.set i b)[i]? = some b := by
  induction l with
  | nil => intro i b y hy; simp at hy
  | cons a t ih =>
    intro i b y hy
    cases i with
    | zero => simp
    | succ j =>
      simp only [List.getElem?_cons_succ] at hy
      simp only [List.set_cons_succ, List.getElem?_cons_succ]
      exact ih j b y hy

theorem set_ne_of_byte_change (l : List Nat) (i b y : Nat)
    (hy : l[i]? = some y) (hb : b ≠ y) : l.set i b ≠ l := by
  intro h
  have h2 := getElem?_set_of_some l i b y hy
  rw [h, hy] at h2
  exact hb (Option.some.inj h2).symm

/-- C1 counterexample: with the server rooted at `/srv`, user `bob`'s
delete operation on the filename `../../alice/uploads/secret.txt` (as
delivered URL-encoded in the `:filename` path parameter) resolves to a path
inside user `alice`'s namespace and succeeds with a 200 response — no
`InvalidFilename` rejection exists anywhere in the resolution. -/
theorem c1_counterexample :
    resolveFile (userHomeDir ("/srv") ("bob")) ("../../alice/uploads/secret.txt")
        = "/srv/home/alice/uploads/secret.txt" ∧
    listIsPrefix ((userHomeDir ("/srv") ("alice") ++ "/").data)
        ((resolveFile (userHomeDir ("/srv") ("bob")) ("../../alice/uploads/secret.txt")).data)
      = true ∧
    (deleteHandler [("/srv/home/alice/uploads/secret.txt", [9, 9, 9])]
        { dn := "d", homeDirectory := userHomeDir ("/srv") ("bob"), uid := "bob",
          iat := 0, exp := 3600 }
        ("../../alice/uploads/secret.txt") ("T")).resp
      = { status := 200, message := "File deleted successfully" } := by
  refine ⟨by decide, by decide, by decide⟩

/-- C1 (amended): the resolution `path.join(homeDir, "uploads", filename)`
performs no validation and never fails with `InvalidFilename`; isolation
holds only for filenames that are single clean path segments (nonempty, not
`.` or `..`, slash-free): for such filenames, and clean distinct uids, the
resolved path of user B lies inside B's own uploads directory and never
inside user A's namespace. -/
theorem c1_no_cross_namespace (d uidA uidB fn : String)
    (hA : CleanSeg uidA.data) (hB : CleanSeg uidB.data) (hf : CleanSeg fn.data)
    (hne : uidA ≠ uidB) :
    listIsPrefix ((userHomeDir d uidB ++ "/").data)
        ((resolveFile (userHomeDir d uidB) fn).data) = true ∧
    listIsPrefix ((userHomeDir d uidA ++ "/").data)
        ((resolveFile (userHomeDir d uidB) fn).data) = false := by
  have hdata : ∀ s t : String, (s ++ t).data = s.data ++ t.data := fun s t => rfl
  constructor
  · rw [hdata, userHomeDir_data d uidB hB, resolveFile_data d uidB fn hB hf,
      show ("/" : String).data = ['/'] from rfl]
    generalize splitBase
        (isAbsOf (joinSegs (([d.data, ("/home/").data]).filter (fun p => decide (p ≠ [])))))
        (normOf (joinSegs (([d.data, ("/home/").data]).filter (fun p => decide (p ≠ []))))) = X
    rw [← List.append_assoc]
    exact listIsPrefix_slash_extend (X ++ uidB.data) (("uploads").data ++ '/' :: fn.data)
  · rw [hdata, userHomeDir_data d uidA hA, resolveFile_data d uidB fn hB hf,
      show ("/" : String).data = ['/'] from rfl]
    generalize splitBase
        (isAbsOf (joinSegs (([d.data, ("/home/").data]).filter (fun p => decide (p ≠ [])))))
        (normOf (joinSegs (([d.data, ("/home/").data]).filter (fun p => decide (p ≠ []))))) = X
    rw [List.append_assoc]
    by_contra hcon
    have htrue : listIsPrefix (X ++ (uidA.data ++ ['/']))
        (X ++ (uidB.data ++ '/' :: (("uploads").data ++ '/' :: fn.data))) = true := by
      rcases Bool.eq_false_or_eq_true (listIsPrefix (X ++ (uidA.data ++ ['/']))
          (X ++ (uidB.data ++ '/' :: (("uploads").data ++ '/' :: fn.data)))) with hb | hb
      · exact hb
      · exact absurd hb hcon
    rw [listIsPrefix_append_cancel] at htrue
    have heq : uidA.data = uidB.data :=
      listIsPrefix_slash_surgery uidA.data uidB.data []
        (("uploads").data ++ '/' :: fn.data) hA.2.2.2 hB.2.2.2 htrue
    exact hne (congrArg String.mk heq)

/-- C1 witness: at `__dirname = "/srv"`, users `alice` and `bob`, filename
`report.txt`, bob's resolved path lies inside bob's uploads directory and
not inside alice's namespace. -/
theorem c1_witness :
    listIsPrefix ((userHomeDir ("/srv") ("bob") ++ "/").data)
        ((resolveFile (userHomeDir ("/srv") ("bob")) ("report.txt")).data) = true ∧
    listIsPrefix ((userHomeDir ("/srv") ("alice") ++ "/").data)
        ((resolveFile (userHomeDir ("/srv") ("bob")) ("report.txt")).data) = false :=
  c1_no_cross_namespace ("/srv") ("alice") ("bob") ("report.txt")
    (by decide) (by decide) (by decide) (by decide)

/-- C2 counterexample: a directory-service-rejected login is answered with
HTTP 500 — a server error status, not a client error status — and the
response's `error` field echoes the underlying directory-service error
detail verbatim. -/
theorem c2_counterexample :
    (loginFailureBranch ("alice") ("LdapAuthenticationError: Invalid Credentials") ("T")).2.status
        = 500 ∧
    ¬ (loginFailureBranch ("alice") ("LdapAuthenticationError: Invalid Credentials") ("T")).2.status
        < 500 ∧
    (loginFailureBranch ("alice") ("LdapAuthenticationError: Invalid Credentials") ("T")).2.error
      = some ("LdapAuthenticationError: Invalid Credentials") :=
  ⟨rfl, by decide, rfl⟩

/-- C2 (amended): every directory-service-rejected login returns HTTP 500
(a server error status) with the generic message `Authentication failed`
and with the underlying directory-service error detail echoed to the
caller in the response's `error` field. -/
theorem c2_login_failure_response (username errorDetail timestamp : String) :
    (loginFailureBranch username errorDetail timestamp).2
      = { status := 500, success := false, message := "Authentication failed",
          error := some errorDetail } := rfl

/-- C3: a token minted by the credential issuer verifies successfully at
time `now` if and only if `now` is before `issuedAt + 3600` (one hour after
issuance), and changing any single byte of its signature makes verification
fail with the invalid-signature error, at every time. -/
theorem c3_token_lifecycle (secret dn home uid : String) (t0 now : Nat) :
    (jwtVerify secret now (jwtSign secret dn home uid t0)
        = Except.ok (jwtSign secret dn home uid t0).payload ↔ now < t0 + 3600) ∧
    (∀ i b y, (jwtSign secret dn home uid t0).sig[i]? = some y → b ≠ y →
      jwtVerify secret now
          { payload := (jwtSign secret dn home uid t0).payload,
            sig := (jwtSign secret dn home uid t0).sig.set i b }
        = Except.error VerifyError.invalid) := by
  have hsig : (jwtSign secret dn home uid t0).sig
      = macBytes secret (jwtSign secret dn home uid t0).payload := rfl
  have hexp : (jwtSign secret dn home uid t0).payload.exp = t0 + 3600 := rfl
  constructor
  · rw [jwtVerify, if_pos hsig, hexp]
    by_cases hle : t0 + 3600 ≤ now
    · rw [if_pos hle]
      constructor
      · intro h
        exact Except.noConfusion h
      · intro h
        exfalso
        omega
    · rw [if_neg hle]
      constructor
      · intro _
        omega
      · intro _
        rfl
  · intro i b y hy hb
    have hne2 : (jwtSign secret dn home uid t0).sig.set i b
        ≠ macBytes secret (jwtSign secret dn home uid t0).payload := by
      rw [← hsig]
      exact set_ne_of_byte_change _ i b y hy hb
    have hstep : jwtVerify secret now
        { payload := (jwtSign secret dn home uid t0).payload,
          sig := (jwtSign secret dn home uid t0).sig.set i b }
        = if (jwtSign secret dn home uid t0).sig.set i b
              = macBytes secret (jwtSign secret dn home uid t0).payload then
            (if (jwtSign secret dn home uid t0).payload.exp ≤ now then
              Except.error VerifyError.expired
            else Except.ok ((jwtSign secret dn home uid t0).payload))
          else Except.error VerifyError.invalid := rfl
    rw [hstep, if_neg hne2]

/-- C3 witness: flipping byte 0 of a concrete signed token's signature
(107, the first byte of the tag, changed to 0) makes verification fail
with the invalid-signature error while the token is still unexpired. -/
theorem c3_witness :
    jwtVerify ("k") 10
        { payload := (jwtSign ("k") ("d") ("h") ("u") 0).payload,
          sig := (jwtSign ("k") ("d") ("h") ("u") 0).sig.set 0 0 }
      = Except.error VerifyError.invalid :=
  (c3_token_lifecycle ("k") ("d") ("h") ("u") 0 10).2 0 0 107 rfl (by decide)

/-- C4 counterexample: an intact-but-expired token and a tampered unexpired
token are distinguished by `jwt.verify` internally, yet the middleware's
single catch block maps both to the identical generic 401 response, so the
verifier does not produce three distinct error outcomes. -/
theorem c4_counterexample :
    jwtVerify ("k") 5000 (jwtSign ("k") ("d") ("h") ("u") 0)
        = Except.error VerifyError.expired ∧
    jwtVerify ("k") 5000
        { payload := (jwtSign ("k") ("d") ("h") ("u") 4000).payload,
          sig := (jwtSign ("k") ("d") ("h") ("u") 4000).sig.set 0 0 }
      = Except.error VerifyError.invalid ∧
    jwtMiddleware ("k") 5000 (BearerInput.token (jwtSign ("k") ("d") ("h") ("u") 0))
      = jwtMiddleware ("k") 5000 (BearerInput.token
          { payload := (jwtSign ("k") ("d") ("h") ("u") 4000).payload,
            sig := (jwtSign ("k") ("d") ("h") ("u") 4000).sig.set 0 0 }) :=
  ⟨rfl, rfl, rfl⟩

/-- C4 (amended): the session verifier produces exactly two distinct error
outcomes, not three: a dedicated 401 `Authorization header is missing`
response iff the bearer token is absent, and one generic 401
`Invalid or missing token` response for a structurally malformed token and
for every verification failure (tampered or expired alike). -/
theorem c4_two_error_outcomes (secret : String) (now : Nat) :
    (∀ inp, jwtMiddleware secret now inp = Except.error missingHeaderResp
        ↔ inp = BearerInput.missing) ∧
    (jwtMiddleware secret now BearerInput.malformed = Except.error invalidTokenResp) ∧
    (∀ t e, jwtVerify secret now t = Except.error e →
      jwtMiddleware secret now (BearerInput.token t) = Except.error invalidTokenResp) := by
  refine ⟨?_, rfl, ?_⟩
  · intro inp
    cases inp with
    | missing =>
      constructor
      · intro _
        rfl
      · intro _
        rfl
    | malformed =>
      constructor
      · intro h
        have h2 : invalidTokenResp = missingHeaderResp := by
          injection h
        exact absurd h2 (by decide)
      · intro h
        exact BearerInput.noConfusion h
    | token t =>
      constructor
      · intro h
        cases hv : jwtVerify secret now t with
        | ok p =>
          rw [show jwtMiddleware secret now (BearerInput.token t)
              = (match jwtVerify secret now t with
                 | Except.ok p => Except.ok p
                 | Except.error _ => Except.error invalidTokenResp) from rfl, hv] at h
          exact Except.noConfusion h
        | error e =>
          rw [show jwtMiddleware secret now (BearerInput.token t)
              = (match jwtVerify secret now t with
                 | Except.ok p => Except.ok p
                 | Except.error _ => Except.error invalidTokenResp) from rfl, hv] at h
          have h2 : invalidTokenResp = missingHeaderResp := by
            injection h
          exact absurd h2 (by decide)
      · intro h
        exact BearerInput.noConfusion h
  · intro t e hv
    rw [show jwtMiddleware secret now (BearerInput.token t)
        = (match jwtVerify secret now t with
           | Except.ok p => Except.ok p
           | Except.error _ => Except.error invalidTokenResp) from rfl, hv]

/-- C4 witness: a concrete expired token is answered by the middleware with
the generic 401 `Invalid or missing token` response. -/
theorem c4_witness :
    jwtMiddleware ("k") 5000 (BearerInput.token (jwtSign ("k") ("d") ("h") ("u") 0))
      = Except.error invalidTokenResp :=
  (c4_two_error_outcomes ("k") 5000).2.2 (jwtSign ("k") ("d") ("h") ("u") 0)
    VerifyError.expired rfl

/-- C5 counterexample: a successful list operation emits no audit call at
all — the `/files` route has no audit middleware and its handler never
calls `audit`. -/
theorem c5_counterexample :
    (filesHandler ("/srv") ("alice") (fun _ => Except.ok [("a.txt")])).audits = [] ∧
    (filesHandler ("/srv") ("alice") (fun _ => Except.ok [("a.txt")])).resp.status = 200 :=
  ⟨rfl, rfl⟩

/-- C5 (amended): upload (when the multer write succeeds), download, view,
and delete each trigger exactly one audit call carrying the corresponding
action and filename, produced by the audit middleware before the route
handler sends its response (for delete, download and view even when the
operation itself fails); the list operation triggers no audit call at all,
on success or failure. -/
theorem c5_audit_coverage (fs : FS) (user : TokenPayload) (filename timestamp : String)
    (now : Nat) (originalname : String) (bytes : List Nat) (dirname uid : String)
    (readdir : String → Except String (List String)) :
    (uploadHandler fs user now originalname bytes timestamp).audits
        = [auditMessage ("upload") (some (storedFilename now originalname)) user.uid timestamp] ∧
    (downloadHandler fs user filename timestamp).audits
        = [auditMessage ("download") (some filename) user.uid timestamp] ∧
    (viewHandler fs user filename timestamp).audits
        = [auditMessage ("view") (some filename) user.uid timestamp] ∧
    (deleteHandler fs user filename timestamp).audits
        = [auditMessage ("delete") (some filename) user.uid timestamp] ∧
    (filesHandler dirname uid readdir).audits = [] := by
  refine ⟨rfl, rfl, rfl, ?_, ?_⟩
  · unfold deleteHandler
    cases fsUnlink fs (resolveFile user.homeDirectory filename) with
    | error e => rfl
    | ok fs2 => rfl
  · unfold filesHandler
    cases readdir (listDir dirname uid) with
    | error e => rfl
    | ok names => rfl

/-- C6 counterexample: with a file present that the delete operation would
successfully remove (yielding a 200 response), a failing audit append makes
the whole route fail with the propagated exception instead — the audit
write failure is not swallowed and blocks the operation's response. -/
theorem c6_counterexample :
    deleteHandlerTracked (fun _ => Except.error ("EIO: i/o error"))
        [("/srv/home/bob/uploads/f.txt", [7])]
        { dn := "d", homeDirectory := "/srv/home/bob", uid := "bob", iat := 0, exp := 3600 }
        ("f.txt") ("T")
      = Except.error ("EIO: i/o error") ∧
    (deleteHandler [("/srv/home/bob/uploads/f.txt", [7])]
        { dn := "d", homeDirectory := "/srv/home/bob", uid := "bob", iat := 0, exp := 3600 }
        ("f.txt") ("T")).resp.status = 200 :=
  ⟨rfl, rfl⟩

/-- C6 (amended): the `audit` function has no try/catch around its
`fs.appendFileSync`, so an audit write failure propagates out of the audit
middleware and aborts the triggering operation before its handler runs;
only when the append succeeds is the operation's own result returned. -/
theorem c6_audit_failure_propagates (fs : FS) (user : TokenPayload)
    (filename timestamp e : String) :
    deleteHandlerTracked (fun _ => Except.error e) fs user filename timestamp
        = Except.error e ∧
    deleteHandlerTracked (fun _ => Except.ok ()) fs user filename timestamp
      = Except.ok (deleteHandler fs user filename timestamp) :=
  ⟨rfl, rfl⟩

/-- C7 counterexample: deleting a filename absent from the caller's uploads
directory returns HTTP 500 `Internal Server Error` — a server error, not
`NotFound` (404). -/
theorem c7_counterexample :
    (deleteHandler []
        { dn := "d", homeDirectory := "/srv/home/bob", uid := "bob", iat := 0, exp := 3600 }
        ("ghost.txt") ("T")).resp.status = 500 ∧
    (deleteHandler []
        { dn := "d", homeDirectory := "/srv/home/bob", uid := "bob", iat := 0, exp := 3600 }
        ("ghost.txt") ("T")).resp.status ≠ 404 :=
  ⟨rfl, by decide⟩

/-- C7 (amended): for every filename whose resolved path is absent from the
store, the delete operation responds with the 500 `Internal Server Error`
response — not success and not `NotFound`. -/
theorem c7_delete_absent (fs : FS) (user : TokenPayload) (filename timestamp : String)
    (h : fsRead fs (resolveFile user.homeDirectory filename) = none) :
    (deleteHandler fs user filename timestamp).resp
      = { status := 500, message := "Internal Server Error" } := by
  unfold deleteHandler
  rw [fsUnlink, h]

/-- C7 witness: deleting `ghost.txt` from an empty store yields the 500
response. -/
theorem c7_witness :
    (deleteHandler []
        { dn := "d", homeDirectory := "/srv/home/bob", uid := "bob", iat := 0, exp := 3600 }
        ("ghost.txt") ("T")).resp
      = { status := 500, message := "Internal Server Error" } :=
  c7_delete_absent []
    { dn := "d", homeDirectory := "/srv/home/bob", uid := "bob", iat := 0, exp := 3600 }
    ("ghost.txt") ("T") rfl

/-- C8: for every directory-service-rejected login attempt, the failure
branch appends exactly one audit entry, whose action is the failed-login
kind (the literal `failed login` in the log line) and which is keyed by the
attempted username, and the login response reports failure. -/
theorem c8_failed_login_audit (username errorDetail timestamp : String) :
    (loginFailureBranch username errorDetail timestamp).1
        = [auditMessage ("failed login") none username timestamp] ∧
    (loginFailureBranch username errorDetail timestamp).2.success = false :=
  ⟨rfl, rfl⟩

/-- C9 counterexample: uploading the byte sequence `[255]` and then viewing
the stored filename yields the UTF-8 replacement character, whose encoding
`[239, 191, 189]` is not `[255]` — view does not round-trip arbitrary
bytes. -/
theorem c9_counterexample :
    (viewHandler (uploadHandler []
          { dn := "d", homeDirectory := userHomeDir ("/srv") ("bob"), uid := "bob",
            iat := 0, exp := 3600 } 111 ("blob.bin") [255] ("T")).fs
        { dn := "d", homeDirectory := userHomeDir ("/srv") ("bob"), uid := "bob",
          iat := 0, exp := 3600 }
        (storedFilename 111 ("blob.bin")) ("T2")).content
      = some (utf8DecodeBytes [255]) ∧
    utf8Encode (utf8DecodeBytes [255]) = [239, 191, 189] ∧
    utf8Encode (utf8DecodeBytes [255]) ≠ [255] := by
  refine ⟨by decide, by decide, by decide⟩

/-- C9 (amended): for every byte sequence X, uploading X and then
downloading the stored filename returned by the upload yields exactly X
back; viewing the same stored filename yields the UTF-8 decoding (with
replacement characters) of X, which equals X only when X is valid UTF-8. -/
theorem c9_roundtrip (fs : FS) (user : TokenPayload) (now : Nat) (originalname : String)
    (bytes : List Nat) (ts ts2 : String) :
    (downloadHandler (uploadHandler fs user now originalname bytes ts).fs user
        (uploadHandler fs user now originalname bytes ts).storedName ts2).body
      = some bytes ∧
    (viewHandler (uploadHandler fs user now originalname bytes ts).fs user
        (uploadHandler fs user now originalname bytes ts).storedName ts2).content
      = some (utf8DecodeBytes bytes) := by
  have hpath : resolveFile user.homeDirectory (storedFilename now originalname)
      = pathJoin [uploadDest user.homeDirectory, storedFilename now originalname] :=
    (pathJoin_cons [user.homeDirectory, "uploads"] [storedFilename now originalname]
      ⟨"uploads", by simp, by decide⟩).symm
  constructor
  · show fsRead
        (fsWrite fs (pathJoin [uploadDest user.homeDirectory, storedFilename now originalname]) bytes)
        (resolveFile user.homeDirectory (storedFilename now originalname)) = some bytes
    rw [hpath]
    simp [fsRead, fsWrite]
  · show (fsRead
        (fsWrite fs (pathJoin [uploadDest user.homeDirectory, storedFilename now originalname]) bytes)
        (resolveFile user.homeDirectory (storedFilename now originalname))).map utf8DecodeBytes
      = some (utf8DecodeBytes bytes)
    rw [hpath]
    simp [fsRead, fsWrite]

/-- C10: for every token minted by a successful login, the storage root
embedded in the payload equals the home directory derived from the
payload's uid, the directory the list operation re-derives from the uid
equals the multer upload destination under that storage root, and the
three-argument join used by download, view and delete agrees with joining
the filename under that destination — all operations address the same
per-user uploads directory. -/
theorem c10_storage_root_consistency (secret dirname dn uid : String) (now : Nat) :
    (issueToken secret dirname dn uid now).payload.homeDirectory
        = userHomeDir dirname ((issueToken secret dirname dn uid now).payload.uid) ∧
    listDir dirname ((issueToken secret dirname dn uid now).payload.uid)
        = uploadDest ((issueToken secret dirname dn uid now).payload.homeDirectory) ∧
    (∀ filename,
      resolveFile ((issueToken secret dirname dn uid now).payload.homeDirectory) filename
        = pathJoin [uploadDest ((issueToken secret dirname dn uid now).payload.homeDirectory),
            filename]) := by
  refine ⟨rfl, ?_, ?_⟩
  · show listDir dirname uid = uploadDest (userHomeDir dirname uid)
    exact (pathJoin_cons [dirname, "/home/", uid] ["uploads"] ⟨"/home/", by simp, by decide⟩).symm
  · intro filename
    show resolveFile (userHomeDir dirname uid) filename
        = pathJoin [uploadDest (userHomeDir dirname uid), filename]
    exact (pathJoin_cons [userHomeDir dirname uid, "uploads"] [filename]
      ⟨"uploads", by simp, by decide⟩).symm

end CFS
